import Mathlib

/-!
Shallow embedding of the `embedded_search_with_supabase_and_python`
repository and verification of its specification.

Embedded source files:
* `ingest_data.py` — sentence chunker (`split_into_sentences`), chunk
  construction, and the SQL rebuild performed inside one
  `with psycopg.connect(...)` block;
* `app/vector_search.py` — `VectorSearchService.search` from the point where
  the store has returned the top-K rows, the `get_connection` context
  manager, and the result construction.

Modelling conventions:
* scores (Python floats obtained as `1 - cosine_distance`) are modelled as
  rationals: every operation the code performs on a score is a comparison or
  a copy, so any linear order is a faithful model;
* the insertion-ordered Python `dict` `doc_scores` is an association list;
* Python `sorted(..., reverse=True)` (a stable sort) is `List.insertionSort`
  with the reversed comparison, which is likewise stable;
* exceptions (`IndexError` from `self.documents[doc_id]`, `KeyError` from
  `doc_scores[doc_id]`) are `Except` errors;
* the external database is modelled operationally: committed state versus
  transaction-local state, with psycopg's commit-on-exit / rollback-on-raise
  connection block.
-/

/-- Scores are Python floats produced by the store; the search code only
copies and compares them, so a linear order (here `ℚ`) is a faithful model. -/
abbrev Score := ℚ

/-- One row returned by the SQL query in `VectorSearchService.search`:
`SELECT content, original_doc_id, 1 - (embedding <=> %s) AS score ...
ORDER BY embedding <=> %s LIMIT %s`.  `original_doc_id` is a `Nat` because
ingestion writes the `enumerate` indices of the corpus list. -/
structure Hit where
  content : String
  original_doc_id : Nat
  score : Score
deriving DecidableEq, Repr

/-- The per-document record stored in the `doc_scores` dict:
Python `\x7b"score": float(score), "hit_chunk": hit["content"]\x7d`. -/
structure Best where
  score : Score
  hit_chunk : String
deriving DecidableEq, Repr

/-- A source document as loaded from the corpus JSON, restricted to the
fields the repository reads.  For each optional field, `none` models an
absent key; for the two text fields `some none` models a JSON `null` (Python
`None`) and `some (some s)` a string value.  `title` is the `"title"` key,
`overview` the `"講義概要"` key, `body` the
`"授業科目の内容・目的・方法・到達目標"` key. -/
structure SourceDoc where
  title : Option String
  overview : Option (Option String)
  body : Option (Option String)
deriving DecidableEq, Repr

/-- One item of the response list built at the end of `search`. -/
structure SearchResultItem where
  title : String
  overview_snippet : String
  score : Score
  hit_chunk : String
deriving DecidableEq, Repr

/-- The value returned by `search`:
Python `\x7b"query": query, "results": results\x7d`. -/
structure SearchOutput where
  query : String
  results : List SearchResultItem
deriving DecidableEq, Repr

/-- How the aggregation/result phase of `search` can raise:
`self.documents[doc_id]` raises `IndexError` when `doc_id` is out of range
for the loaded document list, and `doc_scores[doc_id]` would raise
`KeyError` were the id not a key of the dict.  The code contains no
dedicated data-consistency error. -/
inductive SearchErr where
  | indexError (doc_id : Nat)
  | keyError (doc_id : Nat)
deriving DecidableEq, Repr

/-- Lookup in an insertion-ordered association list: the model of reading
`doc_scores[k]` / testing `k in doc_scores` (keys are kept distinct, so
first-match lookup agrees with dict lookup). -/
def lookupA : List (Nat × Best) → Nat → Option Best
  | [], _ => none
  | (k, v) :: t, q => if k = q then some v else lookupA t q

/-- In-place value replacement for an existing key: the model of
`doc_scores[k] = v` when `k` is already a key (Python dicts keep the key at
its original position). -/
def updateA : List (Nat × Best) → Nat → Best → List (Nat × Best)
  | [], _, _ => []
  | (k, v) :: t, q, w => if k = q then (k, w) :: t else (k, v) :: updateA t q w

/-- One iteration of the aggregation loop in `search`: a hit whose
`original_doc_id` is unseen, or whose score strictly exceeds the stored best
(`score > doc_scores[original_doc_id]["score"]`), becomes the stored best
for that id.  An unseen key is appended (insertion order), an existing key
is updated in place. -/
def stepHit (m : List (Nat × Best)) (h : Hit) : List (Nat × Best) :=
  match lookupA m h.original_doc_id with
  | none => m ++ [(h.original_doc_id, ⟨h.score, h.content⟩)]
  | some b =>
    if b.score < h.score then updateA m h.original_doc_id ⟨h.score, h.content⟩
    else m

/-- The `doc_scores` dict after the aggregation loop has consumed all
retrieved hits, in retrieval order. -/
def doc_scores (hits : List Hit) : List (Nat × Best) :=
  hits.foldl stepHit []

/-- The sort key `lambda doc_id: doc_scores[doc_id]["score"]`.  The `0`
default is never reached: the sort runs over the keys of the dict itself. -/
def keyScore (m : List (Nat × Best)) (k : Nat) : Score :=
  (lookupA m k).elim 0 Best.score

/-- Python `sorted(doc_scores.keys(), key=..., reverse=True)`: a stable sort
of the dict's keys by stored score, descending.  `List.insertionSort` with
the reversed comparison is stable exactly as Python's sort is. -/
def sorted_doc_ids (m : List (Nat × Best)) : List Nat :=
  List.insertionSort (fun a b => keyScore m b ≤ keyScore m a) (m.map Prod.fst)

/-- Python `doc.get("title", "No Title")`. -/
def titleOf (d : SourceDoc) : String :=
  d.title.getD "No Title"

/-- Python `(doc.get("講義概要", "") or "")[:100] + "..."`: an absent key
defaults to `""`; a JSON `null` is Python `None` and `None or ""` is `""`;
an empty string is falsy so `or ""` keeps `""`; then the first 100
characters with an appended ellipsis. -/
def overviewSnippet (d : SourceDoc) : String :=
  (match d.overview with
    | none => ""
    | some none => ""
    | some (some s) => s).take 100 ++ "..."

/-- One entry appended to `results`. -/
def resultOf (doc : SourceDoc) (b : Best) : SearchResultItem :=
  { title := titleOf doc
  , overview_snippet := overviewSnippet doc
  , score := b.score
  , hit_chunk := b.hit_chunk }

/-- The result-building loop of `search`:
`for doc_id in sorted_doc_ids: doc = self.documents[doc_id]; ...`.
The list access comes first and raises `IndexError` on an out-of-range id;
the dict access follows. -/
def buildResults (documents : List SourceDoc) (m : List (Nat × Best)) :
    List Nat → Except SearchErr (List SearchResultItem)
  | [] => .ok []
  | doc_id :: rest =>
    match documents[doc_id]? with
    | none => .error (.indexError doc_id)
    | some doc =>
      match lookupA m doc_id with
      | none => .error (.keyError doc_id)
      | some b => (buildResults documents m rest).map (fun rs => resultOf doc b :: rs)

/-- `VectorSearchService.search` from the point where the store has returned
`hits` (query embedding and SQL execution are external collaborators; the
`LIMIT K` clause bounds `hits.length` by `SEARCH_K` at every call site,
carried here as a hypothesis where needed). -/
def search (documents : List SourceDoc) (query : String) (hits : List Hit) :
    Except SearchErr SearchOutput :=
  (buildResults documents (doc_scores hits)
      (sorted_doc_ids (doc_scores hits))).map (fun rs => ⟨query, rs⟩)

/-! ### The chunker of `ingest_data.py` -/

/-- The sentence-terminal character class `[。！？.]` of the chunker regex. -/
def isSentEnd (c : Char) : Bool :=
  c = '。' || c = '！' || c = '？' || c = '.'

/-- Python `\s` restricted to ASCII (the only whitespace the corpus and the
claims exercise): space, tab, newline, carriage return, vertical tab, form
feed. -/
def isPySpace (c : Char) : Bool :=
  c = ' ' || c = '\t' || c = '\n' || c = '\r' || c = '\x0b' || c = '\x0c'

/-- Scanner state for the split
`re.split(r'(?<=[。！？.])\s*|\n+', text)` (see `splitCore`). -/
inductive ScanState where
  | norm (prev : Option Char)
  | skipWS
  | skipNL
deriving DecidableEq, Repr

/-- Whether the character before the current scan position satisfies the
lookbehind `(?<=[。！？.])`. -/
def prevIsSentEnd : Option Char → Bool
  | none => false
  | some c => isSentEnd c

/-- Operational model of Python
`re.split(r'(?<=[。！？.])\s*|\n+', text)`, scanning left to right exactly as
the `re` engine does.  At a position whose previous character is
sentence-terminal, the first alternative matches a (possibly empty) greedy
whitespace run and splits there; a zero-width match makes the scanner
advance one character (Python 3.7+ empty-match splitting).  Otherwise the
second alternative matches a nonempty newline run.  After a nonempty
delimiter the character that follows can start no new match (its
predecessor is whitespace and it is itself not a newline), so the scan
resumes in `norm`.  A zero-width match at the end of the input contributes a
trailing empty piece, as `re.split` does. -/
def splitCore : List Char → ScanState → List Char → List (List Char)
  | [], .norm prev, acc =>
    if prevIsSentEnd prev then [acc.reverse, []] else [acc.reverse]
  | [], .skipWS, _ => [[]]
  | [], .skipNL, _ => [[]]
  | c :: rest, .norm prev, acc =>
    if prevIsSentEnd prev then
      if isPySpace c then acc.reverse :: splitCore rest .skipWS []
      else acc.reverse :: splitCore rest (.norm (some c)) [c]
    else if c = '\n' then acc.reverse :: splitCore rest .skipNL []
    else splitCore rest (.norm (some c)) (c :: acc)
  | c :: rest, .skipWS, _ =>
    if isPySpace c then splitCore rest .skipWS []
    else splitCore rest (.norm (some c)) [c]
  | c :: rest, .skipNL, _ =>
    if c = '\n' then splitCore rest .skipNL []
    else splitCore rest (.norm (some c)) [c]

/-- Python `str.strip()` on a character list: drop whitespace from both
ends. -/
def pyStrip (s : List Char) : List Char :=
  ((s.dropWhile isPySpace).reverse.dropWhile isPySpace).reverse

/-- Python `str.strip()` on a string. -/
def pyStripS (s : String) : String :=
  String.mk (pyStrip s.data)

/-- The function `split_into_sentences` of `ingest_data.py`:
`sentences = re.split(r'(?<=[。！？.])\s*|\n+', text)` followed by
`[s.strip() for s in sentences if s.strip()]`. -/
def split_into_sentences (text : String) : List String :=
  ((splitCore text.data (.norm none) []).map (fun p => String.mk (pyStrip p))).filter
    (fun s => s ≠ "")

/-! ### Chunk construction and index sizing of `ingest_data.main` -/

/-- One entry of the `chunks_to_embed` list. -/
structure ChunkToEmbed where
  original_doc_id : Nat
  content : String
deriving DecidableEq, Repr

/-- The rendering of `doc.get(field, "")` inside an f-string: an absent key
gives `""`; a JSON `null` gives Python `None`, which the f-string renders as
the text `None`; a string gives itself. -/
def fieldStr : Option (Option String) → String
  | none => ""
  | some none => "None"
  | some (some s) => s

/-- Python `f"..."` joining the two text fields with a newline, then
`.strip()`:
`f"\x7bdoc.get('講義概要', '')\x7d\n\x7bdoc.get('授業科目の内容・目的・方法・到達目標', '')\x7d".strip()`. -/
def fullTextOf (d : SourceDoc) : String :=
  pyStripS (fieldStr d.overview ++ "\n" ++ fieldStr d.body)

/-- The chunk-construction loop of `ingest_data.main`: enumerate the corpus,
split each document's combined text into sentences, keep the nonempty ones
(the inner `if chunk_text:` guard), and prefix each with
`f"\x7btitle\x7d: \x7bchunk_text\x7d"` where `title = doc.get("title", "")`. -/
def chunks_to_embed (documents : List SourceDoc) : List ChunkToEmbed :=
  documents.enum.flatMap (fun p =>
    ((split_into_sentences (fullTextOf p.2)).filter (fun c => c ≠ "")).map
      (fun chunk_text => ⟨p.1, p.2.title.getD "" ++ ": " ++ chunk_text⟩))

/-- The ivfflat list count:
`num_lists = max(1, int(len(chunks_to_embed) / 100))`.  For every feasible
chunk count, Python's float division followed by `int` truncation equals
natural floor division. -/
def num_lists (chunkCount : Nat) : Nat :=
  max 1 (chunkCount / 100)

/-! ### The rebuild transaction of `ingest_data.main`

The ingestion runs every SQL statement on one connection opened by
`with psycopg.connect(...) as conn`, with no intermediate commit; psycopg
starts a transaction implicitly at the first statement, commits it when the
block exits normally and rolls it back when the block raises, and Postgres
DDL (`DROP TABLE`, `CREATE TABLE`, `CREATE INDEX` without `CONCURRENTLY`)
is transactional.  The database is modelled as a committed state (what
concurrent readers observe) plus the transaction-local state. -/

/-- The `documents` table: its rows and, once built, the `lists` parameter
of its ivfflat index. -/
structure DocumentsTable where
  rows : List ChunkToEmbed
  indexLists : Option Nat
deriving DecidableEq, Repr

/-- The SQL statements `ingest_data.main` issues, in order. -/
inductive SqlCmd where
  | dropTableIfExists
  | createTable
  | copyRow (row : ChunkToEmbed)
  | createIndex (lists : Nat)
deriving DecidableEq, Repr

/-- The database as seen through the ingestion connection: `committed` is
what a concurrent reader observes, `uncommitted` the state inside the open
transaction. -/
structure DbState where
  committed : Option DocumentsTable
  uncommitted : Option DocumentsTable
deriving DecidableEq, Repr

/-- Effect of one statement on the (transaction-local) table state. -/
def applySql (t : Option DocumentsTable) : SqlCmd → Option DocumentsTable
  | .dropTableIfExists => none
  | .createTable => some ⟨[], none⟩
  | .copyRow r => t.map (fun tb => ⟨tb.rows ++ [r], tb.indexLists⟩)
  | .createIndex n => t.map (fun tb => ⟨tb.rows, some n⟩)

/-- Execute one statement inside the transaction: only the uncommitted state
moves. -/
def execSql (s : DbState) (c : SqlCmd) : DbState :=
  ⟨s.committed, applySql s.uncommitted c⟩

/-- Execute a statement sequence inside the transaction. -/
def execSqls (s : DbState) (cs : List SqlCmd) : DbState :=
  cs.foldl execSql s

/-- Normal exit of the `with psycopg.connect(...)` block: commit. -/
def commitDb (s : DbState) : DbState :=
  ⟨s.uncommitted, s.uncommitted⟩

/-- Exceptional exit of the `with psycopg.connect(...)` block: rollback. -/
def rollbackDb (s : DbState) : DbState :=
  ⟨s.committed, s.committed⟩

/-- The statement sequence of `ingest_data.main`: drop, create, one COPY row
per chunk (in order), then the ivfflat index sized by `num_lists`. -/
def ingestSqls (documents : List SourceDoc) : List SqlCmd :=
  [.dropTableIfExists, .createTable]
    ++ (chunks_to_embed documents).map .copyRow
    ++ [.createIndex (num_lists (chunks_to_embed documents).length)]

/-- Running the rebuild against a committed store.  `failAfter = some k`:
the run raises after `k` statements (bulk load interrupted, index build
failure, ...) and the connection block rolls the transaction back.
`failAfter = none`: the run completes and the block exit commits. -/
def runIngest (init : Option DocumentsTable) (documents : List SourceDoc) :
    Option Nat → DbState
  | some k => rollbackDb (execSqls ⟨init, init⟩ ((ingestSqls documents).take k))
  | none => commitDb (execSqls ⟨init, init⟩ (ingestSqls documents))

/-! ### The connection pool of `VectorSearchService` -/

/-- The connection pool: the list of free connections (modelled by ids). -/
structure ConnPool where
  free : List Nat
deriving DecidableEq, Repr

/-- The `get_connection` context manager wrapped around a request body:
`conn = self.conn_pool.getconn()` takes a free connection (it blocks while
none is free, modelled by `none`); the body runs inside `try: yield conn`;
`finally: self.conn_pool.putconn(conn)` returns the connection on every
exit path, whether the body returned normally or raised. -/
def get_connection {ε α : Type} (pool : ConnPool) (body : Nat → Except ε α) :
    Option (Except ε α × ConnPool) :=
  match pool.free with
  | [] => none
  | conn :: rest => some (body conn, ⟨rest ++ [conn]⟩)

/-! ### Association-list lemmas for the `doc_scores` dict -/

theorem lookupA_eq_none_iff (m : List (Nat × Best)) (k : Nat) :
    lookupA m k = none ↔ k ∉ m.map Prod.fst := by
  induction m with
  | nil => simp [lookupA]
  | cons p t ih =>
    obtain ⟨a, v⟩ := p
    simp only [lookupA, List.map_cons, List.mem_cons]
    by_cases hak : a = k
    · subst hak
      simp
    · rw [if_neg hak, ih]
      simp [Ne.symm hak]

theorem lookupA_isSome_of_mem {m : List (Nat × Best)} {k : Nat}
    (h : k ∈ m.map Prod.fst) : (lookupA m k).isSome := by
  rcases ho : lookupA m k with _ | b
  · exact absurd h ((lookupA_eq_none_iff m k).mp ho)
  · rfl

theorem mem_of_lookupA_eq_some {m : List (Nat × Best)} {k : Nat} {b : Best}
    (h : lookupA m k = some b) : k ∈ m.map Prod.fst := by
  by_contra hk
  rw [(lookupA_eq_none_iff m k).mpr hk] at h
  exact Option.noConfusion h

theorem lookupA_append_self {m : List (Nat × Best)} {k : Nat} (v : Best)
    (h : lookupA m k = none) : lookupA (m ++ [(k, v)]) k = some v := by
  induction m with
  | nil => simp [lookupA]
  | cons p t ih =>
    obtain ⟨a, w⟩ := p
    by_cases hak : a = k
    · simp [lookupA, hak] at h
    · simp only [lookupA, hak, if_false, List.cons_append] at h ⊢
      simpa [lookupA, hak] using ih h

theorem lookupA_append_other (m : List (Nat × Best)) {k q : Nat} (v : Best)
    (h : k ≠ q) : lookupA (m ++ [(k, v)]) q = lookupA m q := by
  induction m with
  | nil => simp [lookupA, h]
  | cons p t ih =>
    obtain ⟨a, w⟩ := p
    by_cases haq : a = q <;> simp [lookupA, haq, ih]

theorem lookupA_updateA_self {m : List (Nat × Best)} {k : Nat} {b : Best}
    (v : Best) (h : lookupA m k = some b) :
    lookupA (updateA m k v) k = some v := by
  induction m with
  | nil => simp [lookupA] at h
  | cons p t ih =>
    obtain ⟨a, w⟩ := p
    by_cases hak : a = k
    · simp [lookupA, updateA, hak]
    · simp only [lookupA, hak, if_false] at h
      simp [updateA, lookupA, hak, ih h]

theorem lookupA_updateA_other (m : List (Nat × Best)) {k q : Nat} (v : Best)
    (h : k ≠ q) : lookupA (updateA m k v) q = lookupA m q := by
  induction m with
  | nil => simp [updateA]
  | cons p t ih =>
    obtain ⟨a, w⟩ := p
    by_cases hak : a = k
    · subst hak
      simp [updateA, lookupA, h]
    · simp [updateA, lookupA, hak, ih]

theorem updateA_map_fst (m : List (Nat × Best)) (k : Nat) (v : Best) :
    (updateA m k v).map Prod.fst = m.map Prod.fst := by
  induction m with
  | nil => rfl
  | cons p t ih =>
    obtain ⟨a, w⟩ := p
    by_cases hak : a = k <;> simp [updateA, hak, ih]

/-! ### Characterisation of the aggregation loop -/

/-- The stored best for a hit's own id after one loop iteration, as a
function of the previously stored value: a fresh id stores the hit, a seen
id is replaced only on strict improvement. -/
def aggStep (o : Option Best) (h : Hit) : Best :=
  match o with
  | none => ⟨h.score, h.content⟩
  | some b => if b.score < h.score then ⟨h.score, h.content⟩ else b

/-- Folding `aggStep` over the hits of one document. -/
def aggOf (o : Option Best) (l : List Hit) : Option Best :=
  l.foldl (fun o h => some (aggStep o h)) o

/-- The strict-improvement update once a best exists. -/
def bestUpd (b : Best) (h : Hit) : Best :=
  if b.score < h.score then ⟨h.score, h.content⟩ else b

/-- Folding `bestUpd` from an existing best. -/
def runBest (b : Best) (l : List Hit) : Best :=
  l.foldl bestUpd b

theorem aggOf_some (l : List Hit) (b : Best) :
    aggOf (some b) l = some (runBest b l) := by
  induction l generalizing b with
  | nil => rfl
  | cons h t ih => simpa [aggOf, runBest, aggStep, bestUpd] using ih (bestUpd b h)

theorem stepHit_lookup_self (m : List (Nat × Best)) (h : Hit) :
    lookupA (stepHit m h) h.original_doc_id
      = some (aggStep (lookupA m h.original_doc_id) h) := by
  rcases hl : lookupA m h.original_doc_id with _ | b
  · simp only [stepHit, hl, aggStep]
    exact lookupA_append_self _ hl
  · simp only [stepHit, hl, aggStep]
    by_cases hs : b.score < h.score
    · rw [if_pos hs, if_pos hs]
      exact lookupA_updateA_self _ hl
    · rw [if_neg hs, if_neg hs, hl]

theorem stepHit_lookup_other (m : List (Nat × Best)) (h : Hit) {q : Nat}
    (hq : h.original_doc_id ≠ q) : lookupA (stepHit m h) q = lookupA m q := by
  rcases hl : lookupA m h.original_doc_id with _ | b
  · simp only [stepHit, hl]
    exact lookupA_append_other _ _ hq
  · simp only [stepHit, hl]
    by_cases hs : b.score < h.score
    · rw [if_pos hs]
      exact lookupA_updateA_other _ _ hq
    · rw [if_neg hs]

theorem foldl_stepHit_lookup (hits : List Hit) (m : List (Nat × Best)) (k : Nat) :
    lookupA (hits.foldl stepHit m) k
      = aggOf (lookupA m k) (hits.filter (fun h => h.original_doc_id == k)) := by
  induction hits generalizing m with
  | nil => rfl
  | cons h t ih =>
    by_cases hk : h.original_doc_id = k
    · have h1 : lookupA (stepHit m h) k = some (aggStep (lookupA m k) h) := by
        rw [← hk]; exact stepHit_lookup_self m h
      simp only [List.foldl_cons, List.filter_cons, hk, beq_self_eq_true, if_true, ih, h1]
      rfl
    · have h1 : lookupA (stepHit m h) k = lookupA m k := stepHit_lookup_other m h hk
      simp only [List.foldl_cons, List.filter_cons, ih, h1]
      have : (h.original_doc_id == k) = false := by simpa using hk
      rw [this]
      rfl

theorem doc_scores_lookup (hits : List Hit) (k : Nat) :
    lookupA (doc_scores hits) k
      = aggOf none (hits.filter (fun h => h.original_doc_id == k)) :=
  foldl_stepHit_lookup hits [] k

/-- Where `runBest` lands: either nothing beat the initial best and every
score in the list is at most its score, or the list decomposes around the
first hit that set the final record — strictly above the initial best and
everything before it, at least as high as everything after it. -/
theorem runBest_spec (l : List Hit) (b : Best) :
    (runBest b l = b ∧ ∀ g ∈ l, g.score ≤ b.score) ∨
    (∃ l1 h l2, l = l1 ++ h :: l2 ∧ runBest b l = ⟨h.score, h.content⟩ ∧
      b.score < h.score ∧ (∀ g ∈ l1, g.score < h.score) ∧
      ∀ g ∈ l2, g.score ≤ h.score) := by
  induction l generalizing b with
  | nil => exact Or.inl ⟨rfl, by simp⟩
  | cons h t ih =>
    have hrun : runBest b (h :: t) = runBest (bestUpd b h) t := rfl
    by_cases hc : b.score < h.score
    · have hb : bestUpd b h = ⟨h.score, h.content⟩ := if_pos hc
      rcases ih (bestUpd b h) with ⟨he, hall⟩ | ⟨t1, g, t2, hdec, hg, hlt, h1, h2⟩
      · refine Or.inr ⟨[], h, t, by simp, by rw [hrun, he, hb], hc, by simp, ?_⟩
        intro g hgmem
        simpa [hb] using hall g hgmem
      · refine Or.inr ⟨h :: t1, g, t2, by simp [hdec], by rw [hrun, hg], ?_, ?_, h2⟩
        · exact lt_trans hc (by simpa [hb] using hlt)
        · intro g' hg'
          rcases List.mem_cons.mp hg' with rfl | hg'
          · simpa [hb] using hlt
          · exact h1 g' hg'
    · have hb : bestUpd b h = b := if_neg hc
      rcases ih (bestUpd b h) with ⟨he, hall⟩ | ⟨t1, g, t2, hdec, hg, hlt, h1, h2⟩
      · refine Or.inl ⟨by rw [hrun, he, hb], ?_⟩
        intro g hgmem
        rcases List.mem_cons.mp hgmem with rfl | hgmem
        · exact le_of_not_lt hc
        · simpa [hb] using hall g hgmem
      · refine Or.inr ⟨h :: t1, g, t2, by simp [hdec], by rw [hrun, hg], ?_, ?_, h2⟩
        · simpa [hb] using hlt
        · intro g' hg'
          rcases List.mem_cons.mp hg' with rfl | hg'
          · exact lt_of_le_of_lt (le_of_not_lt hc) (by simpa [hb] using hlt)
          · exact h1 g' hg'

/-- Claim C1: for a query whose top-K retrieval yields several hits sharing
one `source_doc_id`, the aggregated entry for that document carries the
maximum score among those hits and the content of the hit achieving that
maximum; when two hits of the document tie at the maximum, the first-seen
hit in retrieval order wins, because the aggregation uses a strict
greater-than comparison. -/
theorem C1_agg_max_first_seen (hits : List Hit) (id : Nat)
    (hne : hits.filter (fun h => h.original_doc_id == id) ≠ []) :
    ∃ l1 h l2,
      hits.filter (fun h => h.original_doc_id == id) = l1 ++ h :: l2 ∧
      lookupA (doc_scores hits) id = some ⟨h.score, h.content⟩ ∧
      (∀ g ∈ hits.filter (fun h => h.original_doc_id == id), g.score ≤ h.score) ∧
      (∀ g ∈ l1, g.score < h.score) ∧
      ∀ g ∈ l2, g.score ≤ h.score := by
  rcases hl : hits.filter (fun h => h.original_doc_id == id) with _ | ⟨h0, t⟩
  · exact absurd hl hne
  · have hlook : lookupA (doc_scores hits) id
        = some (runBest ⟨h0.score, h0.content⟩ t) := by
      rw [doc_scores_lookup, hl]
      exact aggOf_some t ⟨h0.score, h0.content⟩
    rcases runBest_spec t ⟨h0.score, h0.content⟩ with ⟨he, hall⟩ |
      ⟨t1, g, t2, hdec, hg, hlt, h1, h2⟩
    · refine ⟨[], h0, t, by simp [hl], by rw [hlook, he], ?_, by simp, hall⟩
      intro x hx
      rw [hl] at hx
      rcases List.mem_cons.mp hx with rfl | hx
      · exact le_refl _
      · exact hall x hx
    · refine ⟨h0 :: t1, g, t2, by simp [hl, hdec], by rw [hlook, hg], ?_, ?_, h2⟩
      · intro x hx
        rw [hl] at hx
        rcases List.mem_cons.mp hx with rfl | hx
        · exact le_of_lt hlt
        · rw [hdec] at hx
          rcases List.mem_append.mp hx with hx | hx
          · exact le_of_lt (h1 x hx)
          · rcases List.mem_cons.mp hx with rfl | hx
            · exact le_refl _
            · exact h2 x hx
      · intro x hx
        rcases List.mem_cons.mp hx with rfl | hx
        · exact hlt
        · exact h1 x hx

/-- Witness for C1 at a concrete retrieval containing a tie: document 0 is
hit three times with scores 5, 5, 3; the stored best is the first hit with
score 5 and content "a". -/
theorem C1_witness :
    (([⟨"a", 0, 5⟩, ⟨"b", 0, 5⟩, ⟨"c", 0, 3⟩, ⟨"d", 1, 7⟩] : List Hit).filter
        (fun h => h.original_doc_id == 0) ≠ []) ∧
    ∃ l1 h l2,
      ([⟨"a", 0, 5⟩, ⟨"b", 0, 5⟩, ⟨"c", 0, 3⟩, ⟨"d", 1, 7⟩] : List Hit).filter
          (fun h => h.original_doc_id == 0) = l1 ++ h :: l2 ∧
      lookupA (doc_scores [⟨"a", 0, 5⟩, ⟨"b", 0, 5⟩, ⟨"c", 0, 3⟩, ⟨"d", 1, 7⟩]) 0
          = some ⟨h.score, h.content⟩ ∧
      (∀ g ∈ ([⟨"a", 0, 5⟩, ⟨"b", 0, 5⟩, ⟨"c", 0, 3⟩, ⟨"d", 1, 7⟩] : List Hit).filter
          (fun h => h.original_doc_id == 0), g.score ≤ h.score) ∧
      (∀ g ∈ l1, g.score < h.score) ∧
      ∀ g ∈ l2, g.score ≤ h.score :=
  ⟨by decide, C1_agg_max_first_seen _ 0 (by decide)⟩

/-! ### Keys of the aggregation dict -/

theorem stepHit_map_fst_none {m : List (Nat × Best)} {h : Hit}
    (hl : lookupA m h.original_doc_id = none) :
    (stepHit m h).map Prod.fst = m.map Prod.fst ++ [h.original_doc_id] := by
  simp [stepHit, hl]

theorem stepHit_map_fst_some {m : List (Nat × Best)} {h : Hit} {b : Best}
    (hl : lookupA m h.original_doc_id = some b) :
    (stepHit m h).map Prod.fst = m.map Prod.fst := by
  simp only [stepHit, hl]
  by_cases hs : b.score < h.score
  · rw [if_pos hs, updateA_map_fst]
  · rw [if_neg hs]

theorem foldl_stepHit_keys_nodup (hits : List Hit) :
    ∀ m : List (Nat × Best), (m.map Prod.fst).Nodup →
      ((hits.foldl stepHit m).map Prod.fst).Nodup := by
  induction hits with
  | nil => exact fun _ hm => hm
  | cons h t ih =>
    intro m hm
    rw [List.foldl_cons]
    apply ih
    rcases hl : lookupA m h.original_doc_id with _ | b
    · rw [stepHit_map_fst_none hl]
      have hnot : h.original_doc_id ∉ m.map Prod.fst := (lookupA_eq_none_iff _ _).mp hl
      simp [List.nodup_append, hm, hnot]
    · rw [stepHit_map_fst_some hl]
      exact hm

theorem doc_scores_keys_nodup (hits : List Hit) :
    ((doc_scores hits).map Prod.fst).Nodup :=
  foldl_stepHit_keys_nodup hits [] (by simp)

theorem foldl_stepHit_keys_mem (hits : List Hit) :
    ∀ (m : List (Nat × Best)) (k : Nat),
      k ∈ (hits.foldl stepHit m).map Prod.fst
        ↔ k ∈ m.map Prod.fst ∨ k ∈ hits.map Hit.original_doc_id := by
  induction hits with
  | nil => simp
  | cons h t ih =>
    intro m k
    rw [List.foldl_cons, ih]
    rcases hl : lookupA m h.original_doc_id with _ | b
    · rw [stepHit_map_fst_none hl]
      simp only [List.mem_append, List.mem_singleton, List.map_cons, List.mem_cons]
      tauto
    · rw [stepHit_map_fst_some hl]
      have hmem : h.original_doc_id ∈ m.map Prod.fst := mem_of_lookupA_eq_some hl
      simp only [List.map_cons, List.mem_cons]
      constructor
      · tauto
      · rintro (hk | rfl | hk)
        · exact Or.inl hk
        · exact Or.inl hmem
        · exact Or.inr hk

theorem doc_scores_keys_mem (hits : List Hit) (k : Nat) :
    k ∈ (doc_scores hits).map Prod.fst ↔ k ∈ hits.map Hit.original_doc_id := by
  simpa using foldl_stepHit_keys_mem hits [] k

/-! ### The result-building loop -/

theorem search_ok_elim {documents : List SourceDoc} {q : String} {hits : List Hit}
    {out : SearchOutput} (h : search documents q hits = .ok out) :
    buildResults documents (doc_scores hits) (sorted_doc_ids (doc_scores hits))
        = .ok out.results ∧ out.query = q := by
  unfold search at h
  rcases hx : buildResults documents (doc_scores hits) (sorted_doc_ids (doc_scores hits))
    with e | rs
  · rw [hx] at h
    exact absurd h (by simp [Except.map])
  · rw [hx] at h
    simp only [Except.map, Except.ok.injEq] at h
    rw [← h]
    exact ⟨rfl, rfl⟩

theorem buildResults_ok_spec (documents : List SourceDoc) (m : List (Nat × Best)) :
    ∀ ids rs, buildResults documents m ids = .ok rs →
      rs.length = ids.length ∧
      rs.map SearchResultItem.score = ids.map (keyScore m) ∧
      ∀ r ∈ rs, ∃ id doc b, documents[id]? = some doc ∧ lookupA m id = some b ∧
        r = resultOf doc b := by
  intro ids
  induction ids with
  | nil =>
    intro rs h
    simp only [buildResults, Except.ok.injEq] at h
    subst h
    exact ⟨rfl, rfl, by simp⟩
  | cons id rest ih =>
    intro rs h
    simp only [buildResults] at h
    rcases hd : documents[id]? with _ | doc
    · rw [hd] at h
      exact absurd h (by simp)
    · rw [hd] at h
      rcases hm : lookupA m id with _ | b
      · rw [hm] at h
        exact absurd h (by simp)
      · rw [hm] at h
        rcases hb : buildResults documents m rest with e | rs'
        · rw [hb] at h
          exact absurd h (by simp [Except.map])
        · rw [hb] at h
          simp only [Except.map, Except.ok.injEq] at h
          subst h
          obtain ⟨hlen, hsc, hmem⟩ := ih rs' hb
          refine ⟨by simp [hlen], ?_, ?_⟩
          · simp only [List.map_cons, hsc]
            have : (resultOf doc b).score = keyScore m id := by
              simp [resultOf, keyScore, hm]
            rw [this]
          · intro r hr
            rcases List.mem_cons.mp hr with rfl | hr
            · exact ⟨id, doc, b, hd, hm, rfl⟩
            · exact hmem r hr

theorem sorted_doc_ids_pairwise (m : List (Nat × Best)) :
    (sorted_doc_ids m).Pairwise (fun a b => keyScore m b ≤ keyScore m a) := by
  haveI : IsTotal Nat (fun a b => keyScore m b ≤ keyScore m a) :=
    ⟨fun a b => le_total _ _⟩
  haveI : IsTrans Nat (fun a b => keyScore m b ≤ keyScore m a) :=
    ⟨fun _ _ _ hab hbc => le_trans hbc hab⟩
  exact List.sorted_insertionSort _ _

/-- Claim C4: every successful search returns its results sorted by score in
descending order — each element's score is at least the score of the element
that follows it. -/
theorem C4_results_sorted_desc (documents : List SourceDoc) (q : String)
    (hits : List Hit) (out : SearchOutput) (h : search documents q hits = .ok out) :
    out.results.Chain' (fun a b => b.score ≤ a.score) := by
  obtain ⟨hb, -⟩ := search_ok_elim h
  obtain ⟨-, hsc, -⟩ := buildResults_ok_spec _ _ _ _ hb
  have hpair : (out.results.map SearchResultItem.score).Pairwise
      (fun a b : Score => b ≤ a) := by
    rw [hsc]
    exact List.pairwise_map.mpr (sorted_doc_ids_pairwise _)
  have hres : out.results.Pairwise (fun a b => b.score ≤ a.score) :=
    List.pairwise_map.mp hpair
  exact hres.chain'

/-- Decidable equality for `Except` values, used by concrete witnesses. -/
instance {e a : Type} [DecidableEq e] [DecidableEq a] :
    DecidableEq (Except e a) := fun x y =>
  match x, y with
  | .ok u, .ok v =>
    if h : u = v then .isTrue (by rw [h]) else .isFalse (by simp [h])
  | .error u, .error v =>
    if h : u = v then .isTrue (by rw [h]) else .isFalse (by simp [h])
  | .ok _, .error _ => .isFalse (by simp)
  | .error _, .ok _ => .isFalse (by simp)

set_option maxRecDepth 10000 in
/-- Witness for C4 at a concrete search with two result entries of distinct
scores. -/
theorem C4_witness :
    search [⟨none, some none, none⟩, ⟨some "U", some (some "ov"), none⟩] "q"
        [⟨"c0", 0, 1⟩, ⟨"c1", 1, 3⟩, ⟨"c0b", 0, 2⟩]
      = .ok ⟨"q", [⟨"U", "ov...", 3, "c1"⟩, ⟨"No Title", "...", 2, "c0b"⟩]⟩ ∧
    (SearchOutput.mk "q"
        [⟨"U", "ov...", 3, "c1"⟩, ⟨"No Title", "...", 2, "c0b"⟩]).results.Chain'
      (fun a b => b.score ≤ a.score) :=
  ⟨by decide,
    C4_results_sorted_desc
      [⟨none, some none, none⟩, ⟨some "U", some (some "ov"), none⟩] "q"
      [⟨"c0", 0, 1⟩, ⟨"c1", 1, 3⟩, ⟨"c0b", 0, 2⟩]
      ⟨"q", [⟨"U", "ov...", 3, "c1"⟩, ⟨"No Title", "...", 2, "c0b"⟩]⟩
      (by decide)⟩

/-- Claim C5: for every query, the number of returned results is at most K
(the retrieval bound on the number of hits) and at most the number of
distinct `source_doc_id` values among the retrieved hits. -/
theorem C5_results_length_bounds (documents : List SourceDoc) (q : String)
    (hits : List Hit) (K : Nat) (out : SearchOutput) (hK : hits.length ≤ K)
    (h : search documents q hits = .ok out) :
    out.results.length ≤ K ∧
    out.results.length ≤ (hits.map Hit.original_doc_id).toFinset.card := by
  obtain ⟨hb, -⟩ := search_ok_elim h
  obtain ⟨hlen, -, -⟩ := buildResults_ok_spec _ _ _ _ hb
  have hperm : List.Perm (sorted_doc_ids (doc_scores hits))
      ((doc_scores hits).map Prod.fst) :=
    List.perm_insertionSort _ _
  have hseteq : ((doc_scores hits).map Prod.fst).toFinset
      = (hits.map Hit.original_doc_id).toFinset := by
    ext k
    simp only [List.mem_toFinset]
    exact doc_scores_keys_mem hits k
  have hcard : ((doc_scores hits).map Prod.fst).length
      = (hits.map Hit.original_doc_id).toFinset.card := by
    rw [← hseteq, List.toFinset_card_of_nodup (doc_scores_keys_nodup hits)]
  have hresults : out.results.length = (hits.map Hit.original_doc_id).toFinset.card := by
    rw [hlen, hperm.length_eq, hcard]
  refine ⟨?_, le_of_eq hresults⟩
  calc out.results.length
      = (hits.map Hit.original_doc_id).toFinset.card := hresults
    _ ≤ (hits.map Hit.original_doc_id).length := List.toFinset_card_le _
    _ = hits.length := List.length_map _ _
    _ ≤ K := hK

set_option maxRecDepth 10000 in
/-- Witness for C5: three hits over two documents, K = 5: two results,
bounded by K and by the two distinct ids. -/
theorem C5_witness :
    (([⟨"c0", 0, 1⟩, ⟨"c1", 1, 3⟩, ⟨"c0b", 0, 2⟩] : List Hit).length ≤ 5) ∧
    search [⟨none, some none, none⟩, ⟨some "U", some (some "ov"), none⟩] "q"
        [⟨"c0", 0, 1⟩, ⟨"c1", 1, 3⟩, ⟨"c0b", 0, 2⟩]
      = .ok ⟨"q", [⟨"U", "ov...", 3, "c1"⟩, ⟨"No Title", "...", 2, "c0b"⟩]⟩ ∧
    (SearchOutput.mk "q"
        [⟨"U", "ov...", 3, "c1"⟩, ⟨"No Title", "...", 2, "c0b"⟩]).results.length ≤ 5 ∧
    (SearchOutput.mk "q"
        [⟨"U", "ov...", 3, "c1"⟩, ⟨"No Title", "...", 2, "c0b"⟩]).results.length
      ≤ (([⟨"c0", 0, 1⟩, ⟨"c1", 1, 3⟩, ⟨"c0b", 0, 2⟩] : List Hit).map
          Hit.original_doc_id).toFinset.card :=
  ⟨by decide, by decide,
    C5_results_length_bounds
      [⟨none, some none, none⟩, ⟨some "U", some (some "ov"), none⟩] "q"
      [⟨"c0", 0, 1⟩, ⟨"c1", 1, 3⟩, ⟨"c0b", 0, 2⟩] 5
      ⟨"q", [⟨"U", "ov...", 3, "c1"⟩, ⟨"No Title", "...", 2, "c0b"⟩]⟩
      (by decide) (by decide)⟩

/-- Claim C2 as stated is false: the chunker applied to "A。B！C？\nD" does
not return ["A", "B", "C", "D"] — the zero-width lookbehind in the split
regex keeps each sentence-terminal delimiter attached to the end of its
chunk instead of stripping it. -/
theorem C2_counterexample :
    split_into_sentences "A。B！C？\nD" ≠ ["A", "B", "C", "D"] := by decide

/-- Claim C2 (amended): the chunker applied to "A。B！C？\nD" returns
exactly ["A。", "B！", "C？", "D"]: sentence-terminal delimiters remain at
the end of their chunks, order is preserved, surrounding whitespace is
trimmed, and no empty entries appear. -/
theorem C2_amended_split :
    split_into_sentences "A。B！C？\nD" = ["A。", "B！", "C？", "D"] := by decide

/-- Claim C3 as stated is false: a hit whose `source_doc_id` (1) has no
corresponding document in the loaded list (length 1) makes `search` fail
with the unchecked `IndexError` of `self.documents[doc_id]`; the code
raises no explicit data-consistency error. -/
theorem C3_counterexample :
    search [⟨some "T", none, none⟩] "q" [⟨"c", 1, 1⟩]
      = .error (.indexError 1) := by decide

theorem buildResults_error_of_bad_id (documents : List SourceDoc)
    (m : List (Nat × Best)) :
    ∀ ids : List Nat, (∀ j ∈ ids, (lookupA m j).isSome) →
      (∃ j ∈ ids, documents.length ≤ j) →
      ∃ i, documents.length ≤ i ∧
        buildResults documents m ids = .error (.indexError i) := by
  intro ids
  induction ids with
  | nil =>
    rintro - ⟨j, hj, -⟩
    exact absurd hj (List.not_mem_nil j)
  | cons id rest ih =>
    rintro hsome ⟨j, hj, hjlen⟩
    rcases hd : documents[id]? with _ | doc
    · exact ⟨id, List.getElem?_eq_none_iff.mp hd, by simp [buildResults, hd]⟩
    · have hidlt : id < documents.length := by
        by_contra hge
        rw [List.getElem?_eq_none (le_of_not_lt hge)] at hd
        exact Option.noConfusion hd
      have hjrest : j ∈ rest := by
        rcases List.mem_cons.mp hj with rfl | hjr
        · exact absurd hjlen (not_le.mpr hidlt)
        · exact hjr
      obtain ⟨i, hilen, herr⟩ :=
        ih (fun j' hj' => hsome j' (List.mem_cons_of_mem _ hj')) ⟨j, hjrest, hjlen⟩
      have hsid : (lookupA m id).isSome := hsome id (List.mem_cons_self _ _)
      rcases hm : lookupA m id with _ | b
      · rw [hm] at hsid
        exact absurd hsid (by simp)
      · exact ⟨i, hilen, by simp [buildResults, hd, hm, herr, Except.map]⟩

/-- Claim C3 (amended): when any retrieved hit carries a `source_doc_id`
with no corresponding document in the loaded list, `search` fails with the
`IndexError` raised by the unchecked list access `self.documents[doc_id]`,
propagated to the caller; it never silently skips the document and never
silently returns a wrong document. -/
theorem C3_amended_index_error (documents : List SourceDoc) (q : String)
    (hits : List Hit)
    (hbad : ∃ h ∈ hits, documents.length ≤ h.original_doc_id) :
    ∃ i, documents.length ≤ i ∧
      search documents q hits = .error (.indexError i) := by
  obtain ⟨h, hh, hlen⟩ := hbad
  have hkeys : h.original_doc_id ∈ (doc_scores hits).map Prod.fst :=
    (doc_scores_keys_mem hits _).mpr (List.mem_map_of_mem _ hh)
  have hperm : List.Perm (sorted_doc_ids (doc_scores hits))
      ((doc_scores hits).map Prod.fst) := List.perm_insertionSort _ _
  have hin : h.original_doc_id ∈ sorted_doc_ids (doc_scores hits) :=
    hperm.mem_iff.mpr hkeys
  have hsome : ∀ j ∈ sorted_doc_ids (doc_scores hits),
      (lookupA (doc_scores hits) j).isSome :=
    fun j hj => lookupA_isSome_of_mem (hperm.mem_iff.mp hj)
  obtain ⟨i, hilen, herr⟩ := buildResults_error_of_bad_id documents
    (doc_scores hits) (sorted_doc_ids (doc_scores hits)) hsome ⟨_, hin, hlen⟩
  refine ⟨i, hilen, ?_⟩
  have hs : search documents q hits
      = (buildResults documents (doc_scores hits)
          (sorted_doc_ids (doc_scores hits))).map (fun rs => ⟨q, rs⟩) := rfl
  rw [hs, herr]
  rfl

/-- Witness for the amended C3 at the concrete out-of-range input of the
counterexample. -/
theorem C3_amended_witness :
    (∃ h ∈ ([⟨"c", 1, 1⟩] : List Hit),
      ([(⟨some "T", none, none⟩ : SourceDoc)] : List SourceDoc).length
        ≤ h.original_doc_id) ∧
    ∃ i, ([(⟨some "T", none, none⟩ : SourceDoc)] : List SourceDoc).length ≤ i ∧
      search [⟨some "T", none, none⟩] "q" [⟨"c", 1, 1⟩]
        = .error (.indexError i) :=
  ⟨⟨⟨"c", 1, 1⟩, by decide, by decide⟩,
    C3_amended_index_error [⟨some "T", none, none⟩] "q" [⟨"c", 1, 1⟩]
      ⟨⟨"c", 1, 1⟩, by decide, by decide⟩⟩

/-! ### Atomicity of the rebuild transaction -/

theorem execSqls_committed (cs : List SqlCmd) :
    ∀ s : DbState, (execSqls s cs).committed = s.committed := by
  induction cs with
  | nil => intro s; rfl
  | cons c t ih =>
    intro s
    show (execSqls (execSql s c) t).committed = s.committed
    rw [ih (execSql s c)]
    rfl

/-- Claim C6: the ingestion rebuild (drop, create, bulk load, index build)
runs inside a single transaction: if the run fails after any number `k` of
statements, the rollback leaves the previously committed dataset unchanged,
and at every intermediate point of the transaction a concurrent reader
still observes the previously committed dataset — never a
partially-populated table. -/
theorem C6_rebuild_atomic (init : Option DocumentsTable)
    (documents : List SourceDoc) (k : Nat) :
    (runIngest init documents (some k)).committed = init ∧
    (execSqls ⟨init, init⟩ ((ingestSqls documents).take k)).committed = init := by
  have h1 : ∀ cs : List SqlCmd, (execSqls ⟨init, init⟩ cs).committed = init :=
    fun cs => execSqls_committed cs ⟨init, init⟩
  exact ⟨h1 _, h1 _⟩

/-! ### Chunk contents -/

theorem string_append_right_cancel {a b x : String} (h : a ++ x = b ++ x) :
    a = b := by
  have hd : a.data ++ x.data = b.data ++ x.data := by
    rw [← String.data_append, ← String.data_append, h]
  have he := List.append_cancel_right hd
  cases a
  cases b
  exact congrArg String.mk he

/-- Claim C7: every persisted chunk's content equals its parent document's
title followed by ": " followed by one sentence the chunker produced from
that document; consequently two identical sentences under different titles
yield different embedding inputs. -/
theorem C7_chunk_content (documents : List SourceDoc) (ch : ChunkToEmbed)
    (hmem : ch ∈ chunks_to_embed documents) :
    ∃ doc s, documents[ch.original_doc_id]? = some doc ∧
      s ∈ split_into_sentences (fullTextOf doc) ∧
      ch.content = doc.title.getD "" ++ ": " ++ s ∧
      ∀ t : String, t ≠ doc.title.getD "" → ch.content ≠ t ++ ": " ++ s := by
  unfold chunks_to_embed at hmem
  obtain ⟨p, hp, hchp⟩ := List.mem_flatMap.mp hmem
  obtain ⟨i, d⟩ := p
  obtain ⟨ct, hct, hch⟩ := List.mem_map.mp hchp
  have hidx : documents[i]? = some d := List.mk_mem_enum_iff_getElem?.mp hp
  have hsent : ct ∈ split_into_sentences (fullTextOf d) :=
    List.mem_of_mem_filter hct
  refine ⟨d, ct, ?_, hsent, ?_, ?_⟩
  · rw [← hch]
    exact hidx
  · rw [← hch]
  · intro t ht
    rw [← hch]
    intro hcontra
    have h1 : (d.title.getD "" ++ ": ") ++ ct = (t ++ ": ") ++ ct := hcontra
    exact ht (string_append_right_cancel (string_append_right_cancel h1)).symm

set_option maxRecDepth 100000 in
/-- Witness for C7 at a one-document corpus producing two chunks. -/
theorem C7_witness :
    ((⟨0, "T: X。"⟩ : ChunkToEmbed)
        ∈ chunks_to_embed [⟨some "T", some (some "X。Y"), none⟩]) ∧
    ∃ doc s,
      ([(⟨some "T", some (some "X。Y"), none⟩ : SourceDoc)] :
        List SourceDoc)[(⟨0, "T: X。"⟩ : ChunkToEmbed).original_doc_id]?
          = some doc ∧
      s ∈ split_into_sentences (fullTextOf doc) ∧
      (⟨0, "T: X。"⟩ : ChunkToEmbed).content = doc.title.getD "" ++ ": " ++ s ∧
      ∀ t : String, t ≠ doc.title.getD "" →
        (⟨0, "T: X。"⟩ : ChunkToEmbed).content ≠ t ++ ": " ++ s :=
  ⟨by decide, C7_chunk_content [⟨some "T", some (some "X。Y"), none⟩]
    ⟨0, "T: X。"⟩ (by decide)⟩

/-- Claim C8: the ivfflat cluster count used at index build equals
max(1, total_chunk_count / 100) with truncating integer division; it is
always at least 1, and equals 1 for any corpus producing fewer than 200
chunks. -/
theorem C8_num_lists (documents : List SourceDoc) :
    num_lists (chunks_to_embed documents).length
        = max 1 ((chunks_to_embed documents).length / 100) ∧
    1 ≤ num_lists (chunks_to_embed documents).length ∧
    ((chunks_to_embed documents).length < 200 →
      num_lists (chunks_to_embed documents).length = 1) := by
  refine ⟨rfl, Nat.le_max_left _ _, fun h => ?_⟩
  have h1 : (chunks_to_embed documents).length / 100 ≤ 1 := by omega
  unfold num_lists
  omega

set_option maxRecDepth 100000 in
/-- Witness for C8 at a one-document corpus producing two chunks. -/
theorem C8_witness :
    (chunks_to_embed [⟨some "T", some (some "X。Y"), none⟩]).length < 200 ∧
    num_lists (chunks_to_embed [⟨some "T", some (some "X。Y"), none⟩]).length
      = 1 :=
  ⟨by decide, (C8_num_lists [⟨some "T", some (some "X。Y"), none⟩]).2.2 (by decide)⟩

/-- Claim C9: a search request takes exactly one connection from the pool
for the duration of its store query and returns it on every exit path: for
any body — whether it returns a value or raises — the context manager
yields the pool's first free connection and afterwards the pool holds
exactly the connections it held before. -/
theorem C9_connection_returned {e a : Type} (pool : ConnPool) (conn : Nat)
    (rest : List Nat) (body : Nat → Except e a)
    (hfree : pool.free = conn :: rest) :
    get_connection pool body = some (body conn, ⟨rest ++ [conn]⟩) ∧
    List.Perm (ConnPool.mk (rest ++ [conn])).free pool.free := by
  obtain ⟨free⟩ := pool
  simp only at hfree
  subst hfree
  exact ⟨rfl, List.perm_append_singleton conn rest⟩

/-- Witness for C9 with a body that raises: the connection still returns to
the pool. -/
theorem C9_witness :
    get_connection (ConnPool.mk [1, 2])
        (fun _ => (.error (.indexError 0) : Except SearchErr Unit))
      = some (.error (.indexError 0), ⟨[2, 1]⟩) ∧
    List.Perm (ConnPool.mk ([2] ++ [1])).free (ConnPool.mk [1, 2]).free :=
  C9_connection_returned ⟨[1, 2]⟩ 1 [2]
    (fun _ => (.error (.indexError 0) : Except SearchErr Unit)) rfl

set_option maxRecDepth 100000 in
/-- Claim C10: missing document fields get fixed defaults rather than
errors: every result of a successful search is built by `resultOf` from its
source document and stored best hit; when the document lacks a title key
the returned title is exactly "No Title", and when it lacks the overview
key (`講義概要`) or has it set to JSON null, the returned
`overview_snippet` is exactly "..." — the empty string truncated to 100
characters plus the ellipsis. -/
theorem C10_default_fields (documents : List SourceDoc) (q : String)
    (hits : List Hit) (out : SearchOutput)
    (h : search documents q hits = .ok out) :
    ∀ r ∈ out.results, ∃ id doc b, documents[id]? = some doc ∧
      lookupA (doc_scores hits) id = some b ∧ r = resultOf doc b ∧
      (doc.title = none → r.title = "No Title") ∧
      ((doc.overview = none ∨ doc.overview = some none) →
        r.overview_snippet = "...") := by
  obtain ⟨hb, -⟩ := search_ok_elim h
  obtain ⟨-, -, hmem⟩ := buildResults_ok_spec _ _ _ _ hb
  intro r hr
  obtain ⟨id, doc, b, hd, hm, hre⟩ := hmem r hr
  refine ⟨id, doc, b, hd, hm, hre, ?_, ?_⟩
  · intro ht
    rw [hre]
    simp [resultOf, titleOf, ht]
  · rintro (ho | ho) <;> rw [hre] <;>
      simp only [resultOf, overviewSnippet, ho] <;> rfl

set_option maxRecDepth 100000 in
/-- Witness for C10: a document with no title key and a null overview
yields title "No Title" and snippet "...". -/
theorem C10_witness :
    (search [⟨none, some none, none⟩] "q" [⟨"c", 0, 1⟩]
      = .ok ⟨"q", [⟨"No Title", "...", 1, "c"⟩]⟩) ∧
    ((⟨"No Title", "...", 1, "c"⟩ : SearchResultItem)
      ∈ (SearchOutput.mk "q" [⟨"No Title", "...", 1, "c"⟩]).results) ∧
    ∃ id doc b,
      ([(⟨none, some none, none⟩ : SourceDoc)] : List SourceDoc)[id]?
          = some doc ∧
      lookupA (doc_scores [⟨"c", 0, 1⟩]) id = some b ∧
      (⟨"No Title", "...", 1, "c"⟩ : SearchResultItem) = resultOf doc b ∧
      (doc.title = none →
        (⟨"No Title", "...", 1, "c"⟩ : SearchResultItem).title = "No Title") ∧
      ((doc.overview = none ∨ doc.overview = some none) →
        (⟨"No Title", "...", 1, "c"⟩ :
          SearchResultItem).overview_snippet = "...") :=
  ⟨by decide, by decide,
    C10_default_fields [⟨none, some none, none⟩] "q" [⟨"c", 0, 1⟩]
      ⟨"q", [⟨"No Title", "...", 1, "c"⟩]⟩ (by decide) _ (by decide)⟩
